import Mathlib

/-!
Verification development for the staking-ledger core of this repository:
the stake-withdrawal operation (`do_remove_stake`,
`src/pallets/subtensor/src/staking/remove_stake.rs`) and the coldkey
identity-migration operations (`perform_swap_coldkey`, `swap_senate_member`,
exercised by `src/pallets/subtensor/tests/swap_coldkey.rs`).

Machine integers (`u64`) are modelled as `Nat` together with explicit
saturation at `u64Max`: Rust's `saturating_sub` on `u64` coincides with
truncated `Nat` subtraction, and `saturating_add` is `satAdd` below.
Storage maps are modelled as total functions with the substrate `ValueQuery`
default (`0`, `[]`, …); maps whose key absence is observable
(`TotalHotkeyColdkeyStakesThisInterval`) are `Option`-valued.
-/

/-- Opaque 256-bit account identifier for a custodial (cold) key. -/
abbrev ColdKey := Nat

/-- Opaque 256-bit account identifier for an operational (hot) key. -/
abbrev HotKey := Nat

/-- Small unsigned integer naming an independent sub-ledger. -/
abbrev SubnetId := Nat

/-- Largest value representable in a `u64`. -/
def u64Max : Nat := 2 ^ 64 - 1

/-- Saturating `u64` addition (`saturating_add`). -/
def satAdd (a b : Nat) : Nat := min (a + b) u64Max

/-- Pointwise update of a one-argument map. -/
def upd {α β : Type} [DecidableEq α] (f : α → β) (a : α) (b : β) : α → β :=
  fun x => if x = a then b else f x

/-- Pointwise update of a two-argument (curried) map. -/
def upd2 {α β γ : Type} [DecidableEq α] [DecidableEq β]
    (f : α → β → γ) (a : α) (b : β) (v : γ) : α → β → γ :=
  upd f a (upd (f a) b v)

/-- Pointwise update of a three-argument (curried) map. -/
def upd3 {α β γ δ : Type} [DecidableEq α] [DecidableEq β] [DecidableEq γ]
    (f : α → β → γ → δ) (a : α) (b : β) (c : γ) (v : δ) : α → β → γ → δ :=
  upd f a (upd2 (f a) b c v)

/-- The persistent ledger maps and scalars of the pallet (section 3 of the
spec), one field per storage item touched by the two engines. -/
@[ext]
structure LedgerState where
  owner : HotKey → Option ColdKey
  delegates : HotKey → Bool
  ownedHotkeys : ColdKey → List HotKey
  stakingHotkeys : ColdKey → List HotKey
  stake : HotKey → ColdKey → Nat
  alpha : HotKey → ColdKey → SubnetId → Nat
  totalHotkeyAlpha : HotKey → SubnetId → Nat
  totalHotkeyStake : HotKey → Nat
  totalColdkeyStake : ColdKey → Nat
  subnetAlpha : SubnetId → Nat
  subnetTAO : SubnetId → Nat
  subnetMechanism : SubnetId → Nat
  subnetOwner : SubnetId → ColdKey
  totalStake : Nat
  totalIssuance : Nat
  stakesThisInterval : HotKey → ColdKey → Option (Nat × Nat)
  targetStakesPerInterval : Nat
  balance : ColdKey → Nat
  lastTxBlock : ColdKey → Nat
  currentBlock : Nat

/-- Typed errors of `do_remove_stake`, named as in the source. -/
inductive SubtensorError where
  | HotKeyAccountNotExists
  | HotKeyNotDelegateAndSignerNotOwnHotKey
  | StakeToWithdrawIsZero
  | NotEnoughStakeToWithdraw
  | UnstakeRateLimitExceeded
deriving DecidableEq, Repr

/-- Modelled from the spec: `Self::hotkey_account_exists` (body not under
`src/`) — the hotkey has a recorded `Owner` entry. -/
def hotkeyAccountExists (s : LedgerState) (hotkey : HotKey) : Bool :=
  (s.owner hotkey).isSome

/-- Modelled from the spec: `Self::hotkey_is_delegate` (body not under
`src/`) — the hotkey is flagged as accepting delegated stake. -/
def hotkeyIsDelegate (s : LedgerState) (hotkey : HotKey) : Bool :=
  s.delegates hotkey

/-- Modelled from the spec: `Self::coldkey_owns_hotkey` (body not under
`src/`) — the caller is the recorded owner of the hotkey. -/
def coldkeyOwnsHotkey (s : LedgerState) (coldkey : ColdKey) (hotkey : HotKey) : Bool :=
  s.owner hotkey == some coldkey

/-- Modelled from the spec: `Self::has_enough_stake` (body not under
`src/`) — the caller's position is evaluated against the legacy aggregate
`Stake[hotkey, caller]`, not per-subnet `Alpha` (spec section 4.1,
precondition 4). -/
def hasEnoughStake (s : LedgerState) (coldkey : ColdKey) (hotkey : HotKey)
    (amount : Nat) : Bool :=
  amount ≤ s.stake hotkey coldkey

/-- Modelled from the spec:
`Self::get_stakes_this_interval_for_coldkey_hotkey` (body not under
`src/`) — the `count` component of the per-pair rate-limit window entry,
defaulting to zero when no entry is recorded. -/
def getStakesThisIntervalForColdkeyHotkey (s : LedgerState) (coldkey : ColdKey)
    (hotkey : HotKey) : Nat :=
  ((s.stakesThisInterval hotkey coldkey).getD (0, 0)).1

/-- Modelled from the spec: `Self::alpha_to_tao` (body not under `src/`) —
AMM-style price read `tao = alpha * SubnetTAO[subnet] / SubnetAlpha[subnet]`
for dynamic-mechanism subnets. -/
def alphaToTao (s : LedgerState) (amount : Nat) (netuid : SubnetId) : Nat :=
  amount * s.subnetTAO netuid / s.subnetAlpha netuid

/-- Base-currency amount unstaked for a request of `amount` subnet units:
mechanism id `2` (dynamic, STAO) converts through `alphaToTao`; every other
mechanism id (ROOT and other fixed ledgers) is 1:1
(`remove_stake.rs`, lines 77-83). -/
def taoUnstakedOf (s : LedgerState) (netuid : SubnetId) (amount : Nat) : Nat :=
  if s.subnetMechanism netuid = 2 then alphaToTao s amount netuid else amount

/-- Effects block of `do_remove_stake`
(`src/pallets/subtensor/src/staking/remove_stake.rs`, lines 85-141),
reached once every guard has passed. The commented-out
`TotalColdkeyStake` / `TotalHotkeyStake` decrements of lines 97-104 are,
as in the source, absent. All decrements use truncated `Nat` subtraction
(= `u64::saturating_sub`), the balance credit and the interval counter use
`satAdd` (= `u64::saturating_add`). -/
def removeStakeEffects (s : LedgerState) (coldkey : ColdKey) (hotkey : HotKey)
    (netuid : SubnetId) (alphaToBeRemoved : Nat) : LedgerState :=
    let taoUnstaked := taoUnstakedOf s netuid alphaToBeRemoved
    { s with
      totalStake := s.totalStake - taoUnstaked,
      subnetAlpha := upd s.subnetAlpha netuid (s.subnetAlpha netuid - alphaToBeRemoved),
      subnetTAO := upd s.subnetTAO netuid (s.subnetTAO netuid - taoUnstaked),
      stake := upd2 s.stake hotkey coldkey (s.stake hotkey coldkey - taoUnstaked),
      totalHotkeyAlpha := upd2 s.totalHotkeyAlpha hotkey netuid
        (s.totalHotkeyAlpha hotkey netuid - alphaToBeRemoved),
      alpha := upd3 s.alpha hotkey coldkey netuid
        (s.alpha hotkey coldkey netuid - alphaToBeRemoved),
      balance := upd s.balance coldkey (satAdd (s.balance coldkey) taoUnstaked),
      lastTxBlock := upd s.lastTxBlock coldkey s.currentBlock,
      stakesThisInterval := upd2 s.stakesThisInterval hotkey coldkey
        (some (satAdd (getStakesThisIntervalForColdkeyHotkey s coldkey hotkey) 1,
          s.currentBlock)) }

/-- Shallow embedding of `Pallet::do_remove_stake`
(`src/pallets/subtensor/src/staking/remove_stake.rs`, lines 33-151).
The five `ensure!` guards appear in source order; when every guard passes,
the effects of `removeStakeEffects` are applied and the call succeeds. -/
def doRemoveStake (s : LedgerState) (coldkey : ColdKey) (hotkey : HotKey)
    (netuid : SubnetId) (alphaToBeRemoved : Nat) : Except SubtensorError LedgerState :=
  if ¬ (hotkeyAccountExists s hotkey = true) then
    Except.error SubtensorError.HotKeyAccountNotExists
  else if ¬ (hotkeyIsDelegate s hotkey = true ∨ coldkeyOwnsHotkey s coldkey hotkey = true) then
    Except.error SubtensorError.HotKeyNotDelegateAndSignerNotOwnHotKey
  else if ¬ (0 < alphaToBeRemoved) then
    Except.error SubtensorError.StakeToWithdrawIsZero
  else if ¬ (hasEnoughStake s coldkey hotkey alphaToBeRemoved = true) then
    Except.error SubtensorError.NotEnoughStakeToWithdraw
  else if ¬ (getStakesThisIntervalForColdkeyHotkey s coldkey hotkey <
      s.targetStakesPerInterval) then
    Except.error SubtensorError.UnstakeRateLimitExceeded
  else
    Except.ok (removeStakeEffects s coldkey hotkey netuid alphaToBeRemoved)

/-- Storage view of a dispatch: a failed extrinsic leaves the ledger maps
as they were, a successful one installs the new state. -/
def runRemoveStake (s : LedgerState) (coldkey : ColdKey) (hotkey : HotKey)
    (netuid : SubnetId) (alphaToBeRemoved : Nat) : LedgerState :=
  match doRemoveStake s coldkey hotkey netuid alphaToBeRemoved with
  | Except.ok s' => s'
  | Except.error _ => s

/-- Legacy-aggregate stake held by coldkey `c` summed over a list of
hotkeys (the right-hand side of the accounting identity
`TotalColdkeyStake[c] = Σ_h Stake[h, c]`). -/
def coldkeyStakeSum (s : LedgerState) (hks : List HotKey) (c : ColdKey) : Nat :=
  (hks.map (fun h => s.stake h c)).sum

/-- The accounting identity of spec section 3 for coldkey `c`, read over a
list of hotkeys carrying the whole of `c`'s stake. -/
def coldkeyIdentityOn (s : LedgerState) (hks : List HotKey) (c : ColdKey) : Prop :=
  s.totalColdkeyStake c = coldkeyStakeSum s hks c

instance (s : LedgerState) (hks : List HotKey) (c : ColdKey) :
    Decidable (coldkeyIdentityOn s hks c) := by
  unfold coldkeyIdentityOn; infer_instance

/-- Order-preserving duplicate-free union of `ext` into `base` (spec
section 4.2, steps 1-2: each hotkey of the old list is appended unless it
is already present). -/
def mergeDedup (base ext : List HotKey) : List HotKey :=
  ext.foldl (fun acc h => if h ∈ acc then acc else acc ++ [h]) base

/-- One hotkey of spec section 4.2, step 2: read `amt = Stake[h, old]`;
when `amt > 0`, add it (saturating) to `Stake[h, new]` and zero
`Stake[h, old]`. -/
def swapStakeStep (old new : ColdKey) (st : HotKey → ColdKey → Nat)
    (h : HotKey) : HotKey → ColdKey → Nat :=
  if 0 < st h old then
    upd2 (upd2 st h new (satAdd (st h new) (st h old))) h old 0
  else st

/-- One hotkey of spec section 4.2, step 4: when a per-pair rate-limit
tuple is recorded at `(h, old)`, move it to `(h, new)` and remove the
`(h, old)` entry. -/
def swapIntervalStep (old new : ColdKey)
    (iv : HotKey → ColdKey → Option (Nat × Nat)) (h : HotKey) :
    HotKey → ColdKey → Option (Nat × Nat) :=
  match iv h old with
  | some t => upd2 (upd2 iv h new (some t)) h old none
  | none => iv

/-- Modelled from the spec: `Pallet::perform_swap_coldkey` (body not under
`src/`; its tests are `src/pallets/subtensor/tests/swap_coldkey.rs`).
Steps 1-6 of spec section 4.2 in order: relocate hotkey ownership, merge
stake additively and zero the source, move the coldkey stake total, move
the per-pair rate-limit tuples of the owned hotkeys, reassign subnet
ownership, and move the entire spendable balance. `TotalStake`,
`TotalIssuance` and `TotalHotkeyStake` are not touched. Cost metering
(step 7) is not part of the ledger state and is not modelled. -/
def performSwapColdkey (s : LedgerState) (old new : ColdKey) : LedgerState :=
  let ohkOld := s.ownedHotkeys old
  let shkOld := s.stakingHotkeys old
  let bal := s.totalColdkeyStake old
  let b := s.balance old
  let balance1 := upd s.balance old 0
  { s with
    owner := ohkOld.foldl (fun ow h => upd ow h (some new)) s.owner,
    ownedHotkeys :=
      upd (upd s.ownedHotkeys new (mergeDedup (s.ownedHotkeys new) ohkOld)) old [],
    stake := shkOld.foldl (swapStakeStep old new) s.stake,
    stakingHotkeys :=
      upd (upd s.stakingHotkeys new (mergeDedup (s.stakingHotkeys new) shkOld)) old [],
    totalColdkeyStake :=
      upd (upd s.totalColdkeyStake new (satAdd (s.totalColdkeyStake new) bal)) old 0,
    stakesThisInterval := ohkOld.foldl (swapIntervalStep old new) s.stakesThisInterval,
    subnetOwner := fun n => if s.subnetOwner n = old then new else s.subnetOwner n,
    balance := upd balance1 new (satAdd (balance1 new) b) }

/-- Sum of `TotalColdkeyStake` over a list of coldkeys (the conserved
quantity of the conservation property, spec section 8). -/
def tcsSumL (s : LedgerState) (cks : List ColdKey) : Nat :=
  (cks.map s.totalColdkeyStake).sum

/-- The external governance (senate) membership set. -/
structure SenateState where
  isMember : HotKey → Bool

/-- Modelled from the spec: `Pallet::swap_senate_member` (body not under
`src/`; its test is `test_swap_senate_member` in
`src/pallets/subtensor/tests/swap_coldkey.rs`, lines 915-957). Reads
whether `old` is a member; if so removes `old`, adds `new` and reports
2 reads and 2 writes; otherwise reports 1 read and mutates nothing. The
operation is total — it never fails. Returns the new set together with
the reported `(reads, writes)`. -/
def swapSenateMember (st : SenateState) (old new : HotKey) :
    SenateState × Nat × Nat :=
  if st.isMember old = true then
    ({ isMember := upd (upd st.isMember old false) new true }, 2, 2)
  else
    (st, 1, 0)

/-- Ledger state with no recorded entries at all. -/
def emptyLedger : LedgerState where
  owner := fun _ => none
  delegates := fun _ => false
  ownedHotkeys := fun _ => []
  stakingHotkeys := fun _ => []
  stake := fun _ _ => 0
  alpha := fun _ _ _ => 0
  totalHotkeyAlpha := fun _ _ => 0
  totalHotkeyStake := fun _ => 0
  totalColdkeyStake := fun _ => 0
  subnetAlpha := fun _ => 0
  subnetTAO := fun _ => 0
  subnetMechanism := fun _ => 0
  subnetOwner := fun _ => 0
  totalStake := 0
  totalIssuance := 0
  stakesThisInterval := fun _ _ => none
  targetStakesPerInterval := 0
  balance := fun _ => 0
  lastTxBlock := fun _ => 0
  currentBlock := 0

/-- Concrete ledger: coldkey 1 owns hotkey 2 and holds 5 units of stake on
it, subnet 0 is a fixed-mechanism subnet with healthy reserves, and the
accounting identity holds with hotkey list `[2]`. -/
def exA : LedgerState :=
  { emptyLedger with
    owner := fun h => if h = 2 then some 1 else none
    stake := fun h c => if h = 2 ∧ c = 1 then 5 else 0
    totalColdkeyStake := fun c => if c = 1 then 5 else 0
    totalHotkeyStake := fun h => if h = 2 then 5 else 0
    subnetAlpha := fun _ => 50
    subnetTAO := fun _ => 50
    totalStake := 100
    totalIssuance := 100
    targetStakesPerInterval := 10 }

/-- Concrete ledger mirroring `test_swap_stake_for_coldkey`: coldkey 1
owns hotkeys 3 and 4 with stakes 1000 and 2000, coldkey 2 already holds
3000 on hotkey 3. -/
def exSwap : LedgerState :=
  { emptyLedger with
    ownedHotkeys := fun c => if c = 1 then [3, 4] else []
    stakingHotkeys := fun c => if c = 1 then [3, 4] else if c = 2 then [3] else []
    stake := fun h c =>
      if h = 3 ∧ c = 1 then 1000 else
      if h = 4 ∧ c = 1 then 2000 else
      if h = 3 ∧ c = 2 then 3000 else 0
    totalHotkeyStake := fun h => if h = 3 then 4000 else if h = 4 then 2000 else 0
    totalColdkeyStake := fun c => if c = 1 then 3000 else 0
    totalStake := 3000
    totalIssuance := 3000 }

/-- Concrete ledger equal to `exA` except that `TotalStake` is zero while
coldkey 1 still has a recorded position of 5 on hotkey 2: every withdrawal
precondition passes, yet the `TotalStake` decrement clamps at zero. -/
def exC5 : LedgerState := { exA with totalStake := 0 }

/-- Concrete ledger in which `TotalColdkeyStake[1] = u64::MAX` and
`TotalColdkeyStake[2] = 1`, the overflow state of
`test_swap_with_overflow_in_stake_addition`. -/
def exC2 : LedgerState :=
  { emptyLedger with
    totalColdkeyStake := fun c => if c = 1 then u64Max else if c = 2 then 1 else 0 }

/-- Concrete ledger in which coldkey 1 stakes `u64::MAX` on hotkey 3 and
coldkey 2 already stakes 1 on the same hotkey, so the additive merge of a
coldkey swap must saturate. -/
def exC3 : LedgerState :=
  { emptyLedger with
    stakingHotkeys := fun c => if c = 1 then [3] else []
    stake := fun h c =>
      if h = 3 ∧ c = 1 then u64Max else if h = 3 ∧ c = 2 then 1 else 0 }

/-- Concrete governance set whose only member is hotkey 1. -/
def exSenate : SenateState := { isMember := fun k => k == 1 }

/-! Helper lemmas about pointwise updates, saturating arithmetic, list
sums and the migration folds. -/

theorem upd_eval_eq {α β : Type} [DecidableEq α] (f : α → β) (a : α) (v : β) :
    upd f a v a = v := by
  simp [upd]

theorem upd_eval_ne {α β : Type} [DecidableEq α] (f : α → β) (a : α) (v : β)
    {x : α} (hx : x ≠ a) : upd f a v x = f x := by
  simp [upd, hx]

theorem upd_self {α β : Type} [DecidableEq α] (f : α → β) (a : α) :
    upd f a (f a) = f := by
  funext x
  by_cases hx : x = a <;> simp [upd, hx]

theorem upd_upd_same {α β : Type} [DecidableEq α] (f : α → β) (a : α) (v w : β) :
    upd (upd f a v) a w = upd f a w := by
  funext x
  by_cases hx : x = a <;> simp [upd, hx]

theorem satAdd_le_max (a b : Nat) : satAdd a b ≤ u64Max :=
  Nat.min_le_right _ _

theorem satAdd_eq_add_of_le {a b : Nat} (h : a + b ≤ u64Max) :
    satAdd a b = a + b :=
  Nat.min_eq_left h

theorem satAdd_zero_of_le {a : Nat} (h : a ≤ u64Max) : satAdd a 0 = a := by
  simp [satAdd]
  omega

theorem mergeDedup_nil (base : List HotKey) : mergeDedup base [] = base := rfl

theorem map_upd_not_mem {α : Type} [DecidableEq α] (f : α → Nat) (a : α)
    (v : Nat) (l : List α) (ha : a ∉ l) : l.map (upd f a v) = l.map f := by
  induction l with
  | nil => rfl
  | cons x t ih =>
    have hax : x ≠ a := by
      intro h
      exact ha (h ▸ List.mem_cons_self x t)
    have hat : a ∉ t := fun h => ha (List.mem_cons_of_mem x h)
    simp [List.map_cons, upd_eval_ne f a v hax, ih hat]

theorem sum_map_upd {α : Type} [DecidableEq α] (f : α → Nat) (a : α) (v : Nat)
    (l : List α) (ha : a ∈ l) (hnd : l.Nodup) :
    (l.map (upd f a v)).sum + f a = (l.map f).sum + v := by
  induction l with
  | nil => cases ha
  | cons x t ih =>
    rcases List.nodup_cons.mp hnd with ⟨hx, ht⟩
    rcases List.mem_cons.mp ha with h1 | h2
    · subst h1
      rw [List.map_cons, List.map_cons, map_upd_not_mem f a v t hx,
        upd_eval_eq]
      simp [List.sum_cons]
      omega
    · have hxa : x ≠ a := by
        intro h
        exact hx (h ▸ h2)
      have := ih h2 ht
      rw [List.map_cons, List.map_cons, upd_eval_ne f a v hxa]
      simp [List.sum_cons] at this ⊢
      omega

theorem swapStakeStep_ne (old new : ColdKey) (st : HotKey → ColdKey → Nat)
    (x h : HotKey) (c : ColdKey) (hne : h ≠ x) :
    swapStakeStep old new st x h c = st h c := by
  unfold swapStakeStep
  split
  · simp [upd2, upd_eval_ne _ _ _ hne]
  · rfl

theorem foldl_swapStakeStep_not_mem (old new : ColdKey) (l : List HotKey)
    (st : HotKey → ColdKey → Nat) (h : HotKey) (hl : h ∉ l) (c : ColdKey) :
    (l.foldl (swapStakeStep old new) st) h c = st h c := by
  induction l generalizing st with
  | nil => rfl
  | cons x t ih =>
    have hx : h ≠ x := fun hh => hl (hh ▸ List.mem_cons_self x t)
    have ht : h ∉ t := fun hh => hl (List.mem_cons_of_mem x hh)
    rw [List.foldl_cons, ih _ ht, swapStakeStep_ne old new st x h c hx]

theorem foldl_swapStakeStep_mem (old new : ColdKey) (l : List HotKey)
    (st : HotKey → ColdKey → Nat) (h : HotKey) (hne : old ≠ new)
    (hl : h ∈ l) (hfit : st h new + st h old ≤ u64Max) :
    (l.foldl (swapStakeStep old new) st) h new = st h new + st h old ∧
    (l.foldl (swapStakeStep old new) st) h old = 0 := by
  induction l generalizing st with
  | nil => cases hl
  | cons x t ih =>
    rw [List.foldl_cons]
    by_cases hx : h = x
    · subst hx
      have hstep_new : (swapStakeStep old new st h) h new = st h new + st h old := by
        unfold swapStakeStep
        split
        · rw [upd2, upd2, upd_eval_eq, upd_eval_ne _ _ _ (Ne.symm hne),
            upd_eval_eq, upd_eval_eq, satAdd_eq_add_of_le hfit]
        · omega
      have hstep_old : (swapStakeStep old new st h) h old = 0 := by
        unfold swapStakeStep
        split
        · rw [upd2, upd_eval_eq, upd_eval_eq]
        · omega
      by_cases hmem : h ∈ t
      · have hfit' : (swapStakeStep old new st h) h new +
            (swapStakeStep old new st h) h old ≤ u64Max := by
          rw [hstep_new, hstep_old]
          omega
        rcases ih (swapStakeStep old new st h) hmem hfit' with ⟨h1, h2⟩
        rw [h1, h2, hstep_new, hstep_old]
        omega
      · rw [foldl_swapStakeStep_not_mem old new t _ h hmem new,
          foldl_swapStakeStep_not_mem old new t _ h hmem old,
          hstep_new, hstep_old]
        omega
    · have hmem : h ∈ t := by
        rcases List.mem_cons.mp hl with h1 | h2
        · exact absurd h1 hx
        · exact h2
      have hkeep_new : (swapStakeStep old new st x) h new = st h new :=
        swapStakeStep_ne old new st x h new hx
      have hkeep_old : (swapStakeStep old new st x) h old = st h old :=
        swapStakeStep_ne old new st x h old hx
      have hfit' : (swapStakeStep old new st x) h new +
          (swapStakeStep old new st x) h old ≤ u64Max := by
        rw [hkeep_new, hkeep_old]
        exact hfit
      rcases ih (swapStakeStep old new st x) hmem hfit' with ⟨h1, h2⟩
      rw [h1, h2, hkeep_new, hkeep_old]
      exact ⟨rfl, rfl⟩

/-! Facts about the state a coldkey swap leaves at the source key, used
to show the second of two identical swaps is a no-op. -/

theorem swap_ownedHotkeys_old (s : LedgerState) (old new : ColdKey) :
    (performSwapColdkey s old new).ownedHotkeys old = [] := by
  show upd (upd s.ownedHotkeys new
    (mergeDedup (s.ownedHotkeys new) (s.ownedHotkeys old))) old [] old = []
  exact upd_eval_eq _ _ _

theorem swap_stakingHotkeys_old (s : LedgerState) (old new : ColdKey) :
    (performSwapColdkey s old new).stakingHotkeys old = [] := by
  show upd (upd s.stakingHotkeys new
    (mergeDedup (s.stakingHotkeys new) (s.stakingHotkeys old))) old [] old = []
  exact upd_eval_eq _ _ _

theorem swap_tcs_old (s : LedgerState) (old new : ColdKey) :
    (performSwapColdkey s old new).totalColdkeyStake old = 0 := by
  show upd (upd s.totalColdkeyStake new
    (satAdd (s.totalColdkeyStake new) (s.totalColdkeyStake old))) old 0 old = 0
  exact upd_eval_eq _ _ _

theorem swap_tcs_new_le (s : LedgerState) (old new : ColdKey) :
    (performSwapColdkey s old new).totalColdkeyStake new ≤ u64Max := by
  show upd (upd s.totalColdkeyStake new
    (satAdd (s.totalColdkeyStake new) (s.totalColdkeyStake old))) old 0 new ≤ u64Max
  by_cases h : new = old
  · rw [h, upd_eval_eq]
    exact Nat.zero_le _
  · rw [upd_eval_ne _ _ _ h, upd_eval_eq]
    exact satAdd_le_max _ _

theorem swap_balance_old_of_ne (s : LedgerState) (old new : ColdKey)
    (hne : old ≠ new) : (performSwapColdkey s old new).balance old = 0 := by
  show upd (upd s.balance old 0) new
    (satAdd ((upd s.balance old 0) new) (s.balance old)) old = 0
  rw [upd_eval_ne _ _ _ hne, upd_eval_eq]

theorem swap_balance_old_le (s : LedgerState) (old new : ColdKey) :
    (performSwapColdkey s old new).balance old ≤ u64Max := by
  by_cases h : old = new
  · subst h
    show upd (upd s.balance old 0) old
      (satAdd ((upd s.balance old 0) old) (s.balance old)) old ≤ u64Max
    rw [upd_eval_eq]
    exact satAdd_le_max _ _
  · rw [swap_balance_old_of_ne s old new h]
    exact Nat.zero_le _

theorem swap_balance_new_le (s : LedgerState) (old new : ColdKey) :
    (performSwapColdkey s old new).balance new ≤ u64Max := by
  show upd (upd s.balance old 0) new
    (satAdd ((upd s.balance old 0) new) (s.balance old)) new ≤ u64Max
  rw [upd_eval_eq]
  exact satAdd_le_max _ _

theorem swap_subnetOwner_fix (s : LedgerState) (old new : ColdKey) :
    ∀ n, (performSwapColdkey s old new).subnetOwner n = old →
      new = (performSwapColdkey s old new).subnetOwner n := by
  intro n
  show (if s.subnetOwner n = old then new else s.subnetOwner n) = old →
    new = (if s.subnetOwner n = old then new else s.subnetOwner n)
  by_cases hc : s.subnetOwner n = old
  · rw [if_pos hc]
    intro _
    rfl
  · rw [if_neg hc]
    intro h
    exact absurd h hc

/-- A coldkey swap is a no-op on any state whose source key already has an
empty footprint (no owned or staking hotkeys, zero stake total, zero
balance unless the two keys coincide) and whose destination values are in
`u64` range. -/
theorem performSwapColdkey_noop (t : LedgerState) (old new : ColdKey)
    (h1 : t.ownedHotkeys old = [])
    (h2 : t.stakingHotkeys old = [])
    (h3 : t.totalColdkeyStake old = 0)
    (h4 : t.totalColdkeyStake new ≤ u64Max)
    (h5 : ∀ n, t.subnetOwner n = old → new = t.subnetOwner n)
    (hb1 : old ≠ new → t.balance old = 0)
    (hb2 : t.balance old ≤ u64Max)
    (hb3 : t.balance new ≤ u64Max) :
    performSwapColdkey t old new = t := by
  have e_owner : (t.ownedHotkeys old).foldl (fun ow h => upd ow h (some new))
      t.owner = t.owner := by
    rw [h1]
    rfl
  have e_oh : upd (upd t.ownedHotkeys new
      (mergeDedup (t.ownedHotkeys new) (t.ownedHotkeys old))) old [] =
      t.ownedHotkeys := by
    rw [h1, mergeDedup_nil, upd_self, ← h1, upd_self]
  have e_stake : (t.stakingHotkeys old).foldl (swapStakeStep old new) t.stake =
      t.stake := by
    rw [h2]
    rfl
  have e_sh : upd (upd t.stakingHotkeys new
      (mergeDedup (t.stakingHotkeys new) (t.stakingHotkeys old))) old [] =
      t.stakingHotkeys := by
    rw [h2, mergeDedup_nil, upd_self, ← h2, upd_self]
  have e_tcs : upd (upd t.totalColdkeyStake new
      (satAdd (t.totalColdkeyStake new) (t.totalColdkeyStake old))) old 0 =
      t.totalColdkeyStake := by
    rw [h3, satAdd_zero_of_le h4, upd_self, ← h3, upd_self]
  have e_iv : (t.ownedHotkeys old).foldl (swapIntervalStep old new)
      t.stakesThisInterval = t.stakesThisInterval := by
    rw [h1]
    rfl
  have e_so : (fun n => if t.subnetOwner n = old then new else t.subnetOwner n) =
      t.subnetOwner := by
    funext n
    by_cases hc : t.subnetOwner n = old
    · rw [if_pos hc]
      exact h5 n hc
    · rw [if_neg hc]
  have e_bal : upd (upd t.balance old 0) new
      (satAdd ((upd t.balance old 0) new) (t.balance old)) = t.balance := by
    by_cases hne : old = new
    · subst hne
      rw [upd_eval_eq, upd_upd_same]
      have hz : satAdd 0 (t.balance old) = t.balance old := by
        unfold satAdd
        omega
      rw [hz, upd_self]
    · have h0 : upd t.balance old 0 = t.balance := by
        rw [← hb1 hne, upd_self]
      rw [h0, hb1 hne, satAdd_zero_of_le hb3, upd_self]
  show ({ t with
    owner := (t.ownedHotkeys old).foldl (fun ow h => upd ow h (some new)) t.owner,
    ownedHotkeys := upd (upd t.ownedHotkeys new
      (mergeDedup (t.ownedHotkeys new) (t.ownedHotkeys old))) old [],
    stake := (t.stakingHotkeys old).foldl (swapStakeStep old new) t.stake,
    stakingHotkeys := upd (upd t.stakingHotkeys new
      (mergeDedup (t.stakingHotkeys new) (t.stakingHotkeys old))) old [],
    totalColdkeyStake := upd (upd t.totalColdkeyStake new
      (satAdd (t.totalColdkeyStake new) (t.totalColdkeyStake old))) old 0,
    stakesThisInterval := (t.ownedHotkeys old).foldl (swapIntervalStep old new)
      t.stakesThisInterval,
    subnetOwner := fun n => if t.subnetOwner n = old then new else t.subnetOwner n,
    balance := upd (upd t.balance old 0) new
      (satAdd ((upd t.balance old 0) new) (t.balance old)) } : LedgerState) = t
  rw [e_owner, e_oh, e_stake, e_sh, e_tcs, e_iv, e_so, e_bal]

/-! Elimination principle for a successful withdrawal, and the pointwise
values `removeStakeEffects` stores. -/

theorem doRemoveStake_ok_elim (s : LedgerState) (c : ColdKey) (h : HotKey)
    (n : SubnetId) (a : Nat) (s' : LedgerState)
    (hok : doRemoveStake s c h n a = Except.ok s') :
    hotkeyAccountExists s h = true ∧
    (hotkeyIsDelegate s h = true ∨ coldkeyOwnsHotkey s c h = true) ∧
    0 < a ∧
    hasEnoughStake s c h a = true ∧
    getStakesThisIntervalForColdkeyHotkey s c h < s.targetStakesPerInterval ∧
    s' = removeStakeEffects s c h n a := by
  unfold doRemoveStake at hok
  split_ifs at hok with p1 p2 p3 p4 p5
  injection hok with hh
  exact ⟨p1, p2, p3, p4, p5, hh.symm⟩

theorem removeStakeEffects_totalStake (s : LedgerState) (c : ColdKey)
    (h : HotKey) (n : SubnetId) (a : Nat) :
    (removeStakeEffects s c h n a).totalStake =
      s.totalStake - taoUnstakedOf s n a := rfl

theorem removeStakeEffects_subnetAlpha (s : LedgerState) (c : ColdKey)
    (h : HotKey) (n : SubnetId) (a : Nat) :
    (removeStakeEffects s c h n a).subnetAlpha n = s.subnetAlpha n - a :=
  upd_eval_eq _ _ _

theorem removeStakeEffects_subnetTAO (s : LedgerState) (c : ColdKey)
    (h : HotKey) (n : SubnetId) (a : Nat) :
    (removeStakeEffects s c h n a).subnetTAO n =
      s.subnetTAO n - taoUnstakedOf s n a :=
  upd_eval_eq _ _ _

theorem removeStakeEffects_stake (s : LedgerState) (c : ColdKey)
    (h : HotKey) (n : SubnetId) (a : Nat) :
    (removeStakeEffects s c h n a).stake h c =
      s.stake h c - taoUnstakedOf s n a := by
  show upd2 s.stake h c (s.stake h c - taoUnstakedOf s n a) h c = _
  rw [upd2, upd_eval_eq, upd_eval_eq]

theorem removeStakeEffects_stake_other (s : LedgerState) (c : ColdKey)
    (h : HotKey) (n : SubnetId) (a : Nat) (h' : HotKey) (hne : h' ≠ h)
    (c' : ColdKey) :
    (removeStakeEffects s c h n a).stake h' c' = s.stake h' c' := by
  show upd2 s.stake h c (s.stake h c - taoUnstakedOf s n a) h' c' = _
  rw [upd2, upd_eval_ne _ _ _ hne]

theorem removeStakeEffects_totalHotkeyAlpha (s : LedgerState) (c : ColdKey)
    (h : HotKey) (n : SubnetId) (a : Nat) :
    (removeStakeEffects s c h n a).totalHotkeyAlpha h n =
      s.totalHotkeyAlpha h n - a := by
  show upd2 s.totalHotkeyAlpha h n (s.totalHotkeyAlpha h n - a) h n = _
  rw [upd2, upd_eval_eq, upd_eval_eq]

theorem removeStakeEffects_alpha (s : LedgerState) (c : ColdKey)
    (h : HotKey) (n : SubnetId) (a : Nat) :
    (removeStakeEffects s c h n a).alpha h c n = s.alpha h c n - a := by
  show upd3 s.alpha h c n (s.alpha h c n - a) h c n = _
  rw [upd3, upd_eval_eq, upd2, upd_eval_eq, upd_eval_eq]

theorem removeStakeEffects_balance (s : LedgerState) (c : ColdKey)
    (h : HotKey) (n : SubnetId) (a : Nat) :
    (removeStakeEffects s c h n a).balance c =
      satAdd (s.balance c) (taoUnstakedOf s n a) :=
  upd_eval_eq _ _ _

theorem removeStakeEffects_tcs (s : LedgerState) (c : ColdKey)
    (h : HotKey) (n : SubnetId) (a : Nat) :
    (removeStakeEffects s c h n a).totalColdkeyStake = s.totalColdkeyStake := rfl

theorem removeStakeEffects_ths (s : LedgerState) (c : ColdKey)
    (h : HotKey) (n : SubnetId) (a : Nat) :
    (removeStakeEffects s c h n a).totalHotkeyStake = s.totalHotkeyStake := rfl

/-! Claim theorems. -/

/-- C6: the five withdrawal preconditions are evaluated in the stated
order — recorded owner (else `HotKeyAccountNotExists`, the spec's
`UnknownHotkey`), owner-or-delegate (else
`HotKeyNotDelegateAndSignerNotOwnHotKey`, the spec's `Unauthorized`),
positive amount (else `StakeToWithdrawIsZero`, the spec's `ZeroAmount`),
sufficient recorded position (else `NotEnoughStakeToWithdraw`, the spec's
`InsufficientStake`), and per-pair interval count below the ceiling (else
`UnstakeRateLimitExceeded`, the spec's `RateLimited`) — and the first
failing precondition determines the returned error. -/
theorem removeStake_first_failing_precondition_wins
    (s : LedgerState) (c : ColdKey) (h : HotKey) (n : SubnetId) (a : Nat) :
    (doRemoveStake s c h n a = Except.error SubtensorError.HotKeyAccountNotExists ↔
      ¬ hotkeyAccountExists s h = true) ∧
    (doRemoveStake s c h n a =
        Except.error SubtensorError.HotKeyNotDelegateAndSignerNotOwnHotKey ↔
      hotkeyAccountExists s h = true ∧
        ¬ (hotkeyIsDelegate s h = true ∨ coldkeyOwnsHotkey s c h = true)) ∧
    (doRemoveStake s c h n a = Except.error SubtensorError.StakeToWithdrawIsZero ↔
      hotkeyAccountExists s h = true ∧
        (hotkeyIsDelegate s h = true ∨ coldkeyOwnsHotkey s c h = true) ∧
        ¬ 0 < a) ∧
    (doRemoveStake s c h n a = Except.error SubtensorError.NotEnoughStakeToWithdraw ↔
      hotkeyAccountExists s h = true ∧
        (hotkeyIsDelegate s h = true ∨ coldkeyOwnsHotkey s c h = true) ∧
        0 < a ∧ ¬ hasEnoughStake s c h a = true) ∧
    (doRemoveStake s c h n a = Except.error SubtensorError.UnstakeRateLimitExceeded ↔
      hotkeyAccountExists s h = true ∧
        (hotkeyIsDelegate s h = true ∨ coldkeyOwnsHotkey s c h = true) ∧
        0 < a ∧ hasEnoughStake s c h a = true ∧
        ¬ getStakesThisIntervalForColdkeyHotkey s c h < s.targetStakesPerInterval) ∧
    ((∃ s', doRemoveStake s c h n a = Except.ok s') ↔
      hotkeyAccountExists s h = true ∧
        (hotkeyIsDelegate s h = true ∨ coldkeyOwnsHotkey s c h = true) ∧
        0 < a ∧ hasEnoughStake s c h a = true ∧
        getStakesThisIntervalForColdkeyHotkey s c h < s.targetStakesPerInterval) := by
  unfold doRemoveStake
  split_ifs with p1 p2 p3 p4 p5 <;> simp_all

/-- C7: whenever a withdrawal precondition fails (the dispatch returns an
error), every ledger map and counter is exactly as it was before the
call — the guards all precede the first mutation, so the storage view of a
failed call is the original state. -/
theorem removeStake_error_leaves_state_untouched
    (s : LedgerState) (c : ColdKey) (h : HotKey) (n : SubnetId) (a : Nat)
    (e : SubtensorError) (herr : doRemoveStake s c h n a = Except.error e) :
    runRemoveStake s c h n a = s := by
  unfold runRemoveStake
  rw [herr]

/-- C7 witness: on the empty ledger the first precondition fails with
`HotKeyAccountNotExists` and the state is untouched. -/
theorem removeStake_error_leaves_state_untouched_witness :
    doRemoveStake emptyLedger 1 2 0 3 =
      Except.error SubtensorError.HotKeyAccountNotExists ∧
    runRemoveStake emptyLedger 1 2 0 3 = emptyLedger :=
  ⟨rfl, removeStake_error_leaves_state_untouched emptyLedger 1 2 0 3
    SubtensorError.HotKeyAccountNotExists rfl⟩

/-- C8: every decrement a successful withdrawal performs — on
`TotalStake`, `SubnetAlpha`, `SubnetTAO`, `Stake`, `TotalHotkeyAlpha` and
`Alpha` — is the truncated (saturating) subtraction of the respective
amount, and whenever the exact result would be negative the stored value
is zero; no wrap, panic or error occurs. -/
theorem removeStake_decrements_saturate
    (s : LedgerState) (c : ColdKey) (h : HotKey) (n : SubnetId) (a : Nat)
    (s' : LedgerState) (hok : doRemoveStake s c h n a = Except.ok s') :
    s'.totalStake = s.totalStake - taoUnstakedOf s n a ∧
    s'.subnetAlpha n = s.subnetAlpha n - a ∧
    s'.subnetTAO n = s.subnetTAO n - taoUnstakedOf s n a ∧
    s'.stake h c = s.stake h c - taoUnstakedOf s n a ∧
    s'.totalHotkeyAlpha h n = s.totalHotkeyAlpha h n - a ∧
    s'.alpha h c n = s.alpha h c n - a ∧
    (s.totalStake ≤ taoUnstakedOf s n a → s'.totalStake = 0) ∧
    (s.subnetAlpha n ≤ a → s'.subnetAlpha n = 0) ∧
    (s.subnetTAO n ≤ taoUnstakedOf s n a → s'.subnetTAO n = 0) ∧
    (s.stake h c ≤ taoUnstakedOf s n a → s'.stake h c = 0) ∧
    (s.totalHotkeyAlpha h n ≤ a → s'.totalHotkeyAlpha h n = 0) ∧
    (s.alpha h c n ≤ a → s'.alpha h c n = 0) := by
  obtain ⟨-, -, -, -, -, hs'⟩ := doRemoveStake_ok_elim s c h n a s' hok
  subst hs'
  refine ⟨removeStakeEffects_totalStake s c h n a,
    removeStakeEffects_subnetAlpha s c h n a,
    removeStakeEffects_subnetTAO s c h n a,
    removeStakeEffects_stake s c h n a,
    removeStakeEffects_totalHotkeyAlpha s c h n a,
    removeStakeEffects_alpha s c h n a, ?_, ?_, ?_, ?_, ?_, ?_⟩ <;>
    intro hle
  · rw [removeStakeEffects_totalStake s c h n a]
    omega
  · rw [removeStakeEffects_subnetAlpha s c h n a]
    omega
  · rw [removeStakeEffects_subnetTAO s c h n a]
    omega
  · rw [removeStakeEffects_stake s c h n a]
    omega
  · rw [removeStakeEffects_totalHotkeyAlpha s c h n a]
    omega
  · rw [removeStakeEffects_alpha s c h n a]
    omega

/-- C8 witness: on `exC5` (zero `TotalStake`, empty subnet reserves) the
withdrawal of one unit succeeds and each clamped decrement stores zero. -/
theorem removeStake_decrements_saturate_witness :
    doRemoveStake exC5 1 2 0 1 = Except.ok (runRemoveStake exC5 1 2 0 1) ∧
    (runRemoveStake exC5 1 2 0 1).totalStake = exC5.totalStake - taoUnstakedOf exC5 0 1 ∧
    (exC5.totalStake ≤ taoUnstakedOf exC5 0 1 →
      (runRemoveStake exC5 1 2 0 1).totalStake = 0) :=
  ⟨rfl,
    (removeStake_decrements_saturate exC5 1 2 0 1 (runRemoveStake exC5 1 2 0 1) rfl).1,
    fun hle =>
      ((removeStake_decrements_saturate exC5 1 2 0 1
        (runRemoveStake exC5 1 2 0 1) rfl).2.2.2.2.2.2.1) hle⟩

/-- C10: a successful withdrawal leaves the `TotalColdkeyStake` and
`TotalHotkeyStake` maps exactly as they were — the decrement touches only
`Stake[hotkey, caller]` (and the non-aggregate counters); the aggregate
decrements of `remove_stake.rs` lines 97-104 are commented out. -/
theorem removeStake_preserves_coldkey_hotkey_aggregates
    (s : LedgerState) (c : ColdKey) (h : HotKey) (n : SubnetId) (a : Nat)
    (s' : LedgerState) (hok : doRemoveStake s c h n a = Except.ok s') :
    s'.totalColdkeyStake = s.totalColdkeyStake ∧
    s'.totalHotkeyStake = s.totalHotkeyStake := by
  obtain ⟨-, -, -, -, -, hs'⟩ := doRemoveStake_ok_elim s c h n a s' hok
  subst hs'
  exact ⟨removeStakeEffects_tcs s c h n a, removeStakeEffects_ths s c h n a⟩

/-- C10 witness: the successful withdrawal of 3 units on `exA` leaves both
aggregate maps untouched. -/
theorem removeStake_preserves_coldkey_hotkey_aggregates_witness :
    doRemoveStake exA 1 2 0 3 = Except.ok (runRemoveStake exA 1 2 0 3) ∧
    (runRemoveStake exA 1 2 0 3).totalColdkeyStake = exA.totalColdkeyStake ∧
    (runRemoveStake exA 1 2 0 3).totalHotkeyStake = exA.totalHotkeyStake :=
  ⟨rfl, removeStake_preserves_coldkey_hotkey_aggregates exA 1 2 0 3
    (runRemoveStake exA 1 2 0 3) rfl⟩

/-- C5 counterexample: on `exC5` every precondition passes on the
fixed-mechanism subnet 0 (mechanism id 0), the withdrawal of 1 unit
succeeds, yet `TotalStake` (already zero) does not decrease by exactly 1 —
the saturating decrement clamps at zero. -/
theorem removeStake_exact_deltas_cex :
    exC5.subnetMechanism 0 ≠ 2 ∧
    doRemoveStake exC5 1 2 0 1 = Except.ok (runRemoveStake exC5 1 2 0 1) ∧
    ¬ exC5.totalStake = (runRemoveStake exC5 1 2 0 1).totalStake + 1 :=
  ⟨by decide, rfl, by decide⟩

/-- C5 (amended): for a fixed-mechanism subnet, a successful withdrawal of
`a` units decreases `TotalStake`, `Stake[hotkey, caller]`, `SubnetAlpha`
and `SubnetTAO` by exactly `a` and increases the caller's balance by
exactly `a`, provided the pre-state values being decremented are at least
`a` and the credited balance stays within `u64` range (otherwise the
saturating arithmetic clamps; `Stake[hotkey, caller] ≥ a` already follows
from precondition 4 and needs no side condition). -/
theorem removeStake_exact_deltas_fixed
    (s : LedgerState) (c : ColdKey) (h : HotKey) (n : SubnetId) (a : Nat)
    (s' : LedgerState) (hok : doRemoveStake s c h n a = Except.ok s')
    (hmech : s.subnetMechanism n ≠ 2)
    (hts : a ≤ s.totalStake) (hsa : a ≤ s.subnetAlpha n) (hst : a ≤ s.subnetTAO n)
    (hbal : s.balance c + a ≤ u64Max) :
    s'.totalStake + a = s.totalStake ∧
    s'.stake h c + a = s.stake h c ∧
    s'.subnetAlpha n + a = s.subnetAlpha n ∧
    s'.subnetTAO n + a = s.subnetTAO n ∧
    s'.balance c = s.balance c + a := by
  obtain ⟨-, -, -, p4, -, hs'⟩ := doRemoveStake_ok_elim s c h n a s' hok
  have htao : taoUnstakedOf s n a = a := by
    unfold taoUnstakedOf
    rw [if_neg hmech]
  have hstk : a ≤ s.stake h c := by
    simpa [hasEnoughStake] using p4
  subst hs'
  refine ⟨?_, ?_, ?_, ?_, ?_⟩
  · rw [removeStakeEffects_totalStake s c h n a, htao]
    omega
  · rw [removeStakeEffects_stake s c h n a, htao]
    omega
  · rw [removeStakeEffects_subnetAlpha s c h n a]
    omega
  · rw [removeStakeEffects_subnetTAO s c h n a, htao]
    omega
  · rw [removeStakeEffects_balance s c h n a, htao, satAdd_eq_add_of_le hbal]

/-- C5 witness: withdrawing 3 units on `exA` (fixed mechanism, ample
totals) moves each counter by exactly 3. -/
theorem removeStake_exact_deltas_fixed_witness :
    doRemoveStake exA 1 2 0 3 = Except.ok (runRemoveStake exA 1 2 0 3) ∧
    (runRemoveStake exA 1 2 0 3).totalStake + 3 = exA.totalStake ∧
    (runRemoveStake exA 1 2 0 3).stake 2 1 + 3 = exA.stake 2 1 ∧
    (runRemoveStake exA 1 2 0 3).subnetAlpha 0 + 3 = exA.subnetAlpha 0 ∧
    (runRemoveStake exA 1 2 0 3).subnetTAO 0 + 3 = exA.subnetTAO 0 ∧
    (runRemoveStake exA 1 2 0 3).balance 1 = exA.balance 1 + 3 :=
  ⟨rfl, removeStake_exact_deltas_fixed exA 1 2 0 3 (runRemoveStake exA 1 2 0 3)
    rfl (by decide) (by decide) (by decide) (by decide) (by decide)⟩

/-- C1 counterexample: on `exA` the accounting identity
`TotalColdkeyStake[1] = Σ_h Stake[h, 1]` holds before (both sides 5, all
stake of coldkey 1 sits on hotkey 2), the withdrawal of 3 units succeeds,
and the identity fails afterwards (`TotalColdkeyStake[1]` is still 5 while
the stake sum has dropped to 2). -/
theorem coldkey_identity_after_withdraw_cex :
    coldkeyIdentityOn exA [2] 1 ∧
    doRemoveStake exA 1 2 0 3 = Except.ok (runRemoveStake exA 1 2 0 3) ∧
    ¬ coldkeyIdentityOn (runRemoveStake exA 1 2 0 3) [2] 1 :=
  ⟨by decide, rfl, by decide⟩

/-- C1 (amended): a successful withdrawal of `a > 0` units on a
fixed-mechanism subnet leaves `TotalColdkeyStake` unchanged while the
stake sum `Σ_h Stake[h, caller]` decreases by exactly `a` (the aggregate
decrement is commented out in `remove_stake.rs` lines 97-100), so the
accounting identity, when it holds before the call, never holds after it.
The migration operation, by contrast, does preserve the identity-relevant
totals (see the C2 and C3 theorems). -/
theorem coldkey_identity_broken_by_withdraw
    (s : LedgerState) (c : ColdKey) (h : HotKey) (n : SubnetId) (a : Nat)
    (s' : LedgerState) (hks : List HotKey)
    (hok : doRemoveStake s c h n a = Except.ok s')
    (hmech : s.subnetMechanism n ≠ 2)
    (hmem : h ∈ hks) (hnd : hks.Nodup) :
    s'.totalColdkeyStake = s.totalColdkeyStake ∧
    coldkeyStakeSum s' hks c + a = coldkeyStakeSum s hks c ∧
    (coldkeyIdentityOn s hks c → ¬ coldkeyIdentityOn s' hks c) := by
  obtain ⟨-, -, p3, p4, -, hs'⟩ := doRemoveStake_ok_elim s c h n a s' hok
  have htao : taoUnstakedOf s n a = a := by
    unfold taoUnstakedOf
    rw [if_neg hmech]
  have hstk : a ≤ s.stake h c := by
    simpa [hasEnoughStake] using p4
  subst hs'
  have htcs : (removeStakeEffects s c h n a).totalColdkeyStake =
      s.totalColdkeyStake := removeStakeEffects_tcs s c h n a
  have hmap : (fun h' => (removeStakeEffects s c h n a).stake h' c) =
      upd (fun h' => s.stake h' c) h (s.stake h c - a) := by
    funext h'
    by_cases hh : h' = h
    · rw [hh, removeStakeEffects_stake s c h n a, htao, upd_eval_eq]
    · rw [removeStakeEffects_stake_other s c h n a h' hh c, upd_eval_ne _ _ _ hh]
  have hsum : coldkeyStakeSum (removeStakeEffects s c h n a) hks c + a =
      coldkeyStakeSum s hks c := by
    unfold coldkeyStakeSum
    rw [hmap]
    have hs2 : (hks.map (upd (fun h' => s.stake h' c) h (s.stake h c - a))).sum
        + s.stake h c =
        (hks.map (fun h' => s.stake h' c)).sum + (s.stake h c - a) :=
      sum_map_upd (fun h' => s.stake h' c) h (s.stake h c - a) hks hmem hnd
    omega
  refine ⟨htcs, hsum, ?_⟩
  intro hid hid'
  unfold coldkeyIdentityOn at hid hid'
  have h1 : (removeStakeEffects s c h n a).totalColdkeyStake c =
      s.totalColdkeyStake c := congrFun htcs c
  omega

/-- C1 (amended) witness: concrete instantiation on `exA` with hotkey
list `[2]`. -/
theorem coldkey_identity_broken_by_withdraw_witness :
    (runRemoveStake exA 1 2 0 3).totalColdkeyStake = exA.totalColdkeyStake ∧
    coldkeyStakeSum (runRemoveStake exA 1 2 0 3) [2] 1 + 3 =
      coldkeyStakeSum exA [2] 1 ∧
    (coldkeyIdentityOn exA [2] 1 →
      ¬ coldkeyIdentityOn (runRemoveStake exA 1 2 0 3) [2] 1) :=
  coldkey_identity_broken_by_withdraw exA 1 2 0 3 (runRemoveStake exA 1 2 0 3)
    [2] rfl (by decide) (by decide) (by decide)

/-- C2 counterexample: on the overflow state `exC2`
(`TotalColdkeyStake[1] = u64::MAX`, `TotalColdkeyStake[2] = 1`, the state
of `test_swap_with_overflow_in_stake_addition`) the coldkey swap does not
leave `TotalStake`, `TotalIssuance` and `Σ_c TotalColdkeyStake[c]` all
unchanged: the saturating add clamps the destination total at `u64::MAX`
and the sum over the two keys shrinks by 1. -/
theorem swap_conservation_cex :
    ¬ ((performSwapColdkey exC2 1 2).totalStake = exC2.totalStake ∧
      (performSwapColdkey exC2 1 2).totalIssuance = exC2.totalIssuance ∧
      tcsSumL (performSwapColdkey exC2 1 2) [1, 2] = tcsSumL exC2 [1, 2]) := by
  decide

/-- C2 (amended): for two distinct coldkeys, the coldkey swap leaves
`TotalStake` and `TotalIssuance` unchanged for every ledger state, and it
leaves `Σ_c TotalColdkeyStake[c]` unchanged whenever
`TotalColdkeyStake[new] + TotalColdkeyStake[old]` fits in a `u64`
(otherwise the saturating add of step 3 clamps and the sum shrinks, as in
`test_swap_with_overflow_in_stake_addition`). -/
theorem swap_conservation
    (s : LedgerState) (old new : ColdKey) (cks : List ColdKey)
    (hne : old ≠ new) (ho : old ∈ cks) (hn : new ∈ cks) (hnd : cks.Nodup)
    (hfit : s.totalColdkeyStake new + s.totalColdkeyStake old ≤ u64Max) :
    (performSwapColdkey s old new).totalStake = s.totalStake ∧
    (performSwapColdkey s old new).totalIssuance = s.totalIssuance ∧
    tcsSumL (performSwapColdkey s old new) cks = tcsSumL s cks := by
  refine ⟨rfl, rfl, ?_⟩
  have htcs : (performSwapColdkey s old new).totalColdkeyStake =
      upd (upd s.totalColdkeyStake new
        (satAdd (s.totalColdkeyStake new) (s.totalColdkeyStake old))) old 0 := rfl
  unfold tcsSumL
  rw [htcs, satAdd_eq_add_of_le hfit]
  have hgold : upd s.totalColdkeyStake new
      (s.totalColdkeyStake new + s.totalColdkeyStake old) old =
      s.totalColdkeyStake old :=
    upd_eval_ne _ _ _ hne
  have e1 := sum_map_upd (upd s.totalColdkeyStake new
    (s.totalColdkeyStake new + s.totalColdkeyStake old)) old 0 cks ho hnd
  have e2 := sum_map_upd s.totalColdkeyStake new
    (s.totalColdkeyStake new + s.totalColdkeyStake old) cks hn hnd
  rw [hgold] at e1
  omega

/-- C2 (amended) witness: concrete instantiation on `exSwap` with coldkey
list `[1, 2]`. -/
theorem swap_conservation_witness :
    (performSwapColdkey exSwap 1 2).totalStake = exSwap.totalStake ∧
    (performSwapColdkey exSwap 1 2).totalIssuance = exSwap.totalIssuance ∧
    tcsSumL (performSwapColdkey exSwap 1 2) [1, 2] = tcsSumL exSwap [1, 2] :=
  swap_conservation exSwap 1 2 [1, 2] (by decide) (by decide) (by decide)
    (by decide) (by decide)

/-- C3 counterexample: with `Stake[3, 1] = u64::MAX` and `Stake[3, 2] = 1`
both positive, the swap stores the saturated value `u64::MAX` at
`Stake[3, 2]`, not the exact sum `u64::MAX + 1`; the source side is still
zeroed. -/
theorem swap_stake_merge_cex :
    0 < exC3.stake 3 1 ∧ 0 < exC3.stake 3 2 ∧
    ¬ (performSwapColdkey exC3 1 2).stake 3 2 = exC3.stake 3 1 + exC3.stake 3 2 ∧
    (performSwapColdkey exC3 1 2).stake 3 2 = u64Max ∧
    (performSwapColdkey exC3 1 2).stake 3 1 = 0 := by
  decide

/-- C3 (amended): for two distinct coldkeys and a hotkey recorded in the
source's staking list, the coldkey swap merges additively — afterwards
`Stake[h, new]` is the pre-existing destination amount increased by the
source amount (never overwritten) and `Stake[h, old]` is zero — provided
the exact sum fits in a `u64` (otherwise the saturating add stores
`u64::MAX`). -/
theorem swap_stake_merge_additive
    (s : LedgerState) (old new : ColdKey) (h : HotKey)
    (hne : old ≠ new) (hmem : h ∈ s.stakingHotkeys old)
    (hfit : s.stake h new + s.stake h old ≤ u64Max) :
    (performSwapColdkey s old new).stake h new = s.stake h old + s.stake h new ∧
    (performSwapColdkey s old new).stake h old = 0 := by
  have hstake : (performSwapColdkey s old new).stake =
      (s.stakingHotkeys old).foldl (swapStakeStep old new) s.stake := rfl
  rw [hstake]
  obtain ⟨h1, h2⟩ := foldl_swapStakeStep_mem old new (s.stakingHotkeys old)
    s.stake h hne hmem hfit
  rw [h1, h2]
  exact ⟨Nat.add_comm _ _, rfl⟩

/-- C3 (amended) witness: on `exSwap` (source amount 1000 on hotkey 3,
destination already holds 3000) the merged stake is 4000 and the source is
zeroed. -/
theorem swap_stake_merge_additive_witness :
    (performSwapColdkey exSwap 1 2).stake 3 2 = exSwap.stake 3 1 + exSwap.stake 3 2 ∧
    (performSwapColdkey exSwap 1 2).stake 3 1 = 0 :=
  swap_stake_merge_additive exSwap 1 2 3 (by decide) (by decide) (by decide)

/-- C4: performing the same coldkey swap twice in sequence yields exactly
the ledger state of performing it once — after the first call the source
key's owned-hotkey and staking-hotkey lists are empty, its stake total and
balance are zero and no subnet owner equals it, so the second call moves
nothing. -/
theorem performSwapColdkey_idempotent (s : LedgerState) (old new : ColdKey) :
    performSwapColdkey (performSwapColdkey s old new) old new =
      performSwapColdkey s old new :=
  performSwapColdkey_noop (performSwapColdkey s old new) old new
    (swap_ownedHotkeys_old s old new) (swap_stakingHotkeys_old s old new)
    (swap_tcs_old s old new) (swap_tcs_new_le s old new)
    (swap_subnetOwner_fix s old new)
    (swap_balance_old_of_ne s old new)
    (swap_balance_old_le s old new) (swap_balance_new_le s old new)

/-- C9: the governance-membership swap never fails; when `old` is a member
it removes `old`, adds `new`, leaves every other hotkey's membership
unchanged and reports exactly 2 reads and 2 writes; when `old` is not a
member it mutates nothing and reports exactly 1 read and 0 writes. -/
theorem swapSenateMember_spec (st : SenateState) (old new : HotKey)
    (hne : old ≠ new) :
    (st.isMember old = true →
      (swapSenateMember st old new).1.isMember new = true ∧
      (swapSenateMember st old new).1.isMember old = false ∧
      (∀ k, k ≠ old → k ≠ new →
        (swapSenateMember st old new).1.isMember k = st.isMember k) ∧
      (swapSenateMember st old new).2.1 = 2 ∧
      (swapSenateMember st old new).2.2 = 2) ∧
    (st.isMember old = false →
      (swapSenateMember st old new).1 = st ∧
      (swapSenateMember st old new).2.1 = 1 ∧
      (swapSenateMember st old new).2.2 = 0) := by
  constructor
  · intro hm
    have hsw : swapSenateMember st old new =
        ({ isMember := upd (upd st.isMember old false) new true }, 2, 2) := by
      unfold swapSenateMember
      rw [if_pos hm]
    rw [hsw]
    refine ⟨upd_eval_eq _ _ _, ?_, ?_, rfl, rfl⟩
    · show upd (upd st.isMember old false) new true old = false
      rw [upd_eval_ne _ _ _ hne, upd_eval_eq]
    · intro k hko hkn
      show upd (upd st.isMember old false) new true k = st.isMember k
      rw [upd_eval_ne _ _ _ hkn, upd_eval_ne _ _ _ hko]
  · intro hm
    have hsw : swapSenateMember st old new = (st, 1, 0) := by
      unfold swapSenateMember
      rw [if_neg (by simp [hm])]
    rw [hsw]
    exact ⟨rfl, rfl, rfl⟩

/-- C9 witness: swapping member 1 for 2 in the singleton senate `exSenate`
adds 2, removes 1 and reports 2 reads and 2 writes; swapping the
non-member 3 mutates nothing and reports 1 read. -/
theorem swapSenateMember_spec_witness :
    ((swapSenateMember exSenate 1 2).1.isMember 2 = true ∧
      (swapSenateMember exSenate 1 2).1.isMember 1 = false ∧
      (swapSenateMember exSenate 1 2).2.1 = 2 ∧
      (swapSenateMember exSenate 1 2).2.2 = 2) ∧
    ((swapSenateMember exSenate 3 2).1 = exSenate ∧
      (swapSenateMember exSenate 3 2).2.1 = 1 ∧
      (swapSenateMember exSenate 3 2).2.2 = 0) := by
  have hw1 := (swapSenateMember_spec exSenate 1 2 (by decide)).1 (by decide)
  have hw2 := (swapSenateMember_spec exSenate 3 2 (by decide)).2 (by decide)
  exact ⟨⟨hw1.1, hw1.2.1, hw1.2.2.2.1, hw1.2.2.2.2⟩, hw2⟩
